import Mathlib

/-!
Shallow embedding of the Material UI MCP server core (`src/index.ts`):
the static component catalog, the category map, the name normalizer
(`toKebabCase` and the inline key-to-title transform), the catalog query
engine (`list_components`, `search_components`), the documentation fetch
handler (`get_component_info`, parameterized over the outbound fetch
outcome), and the regex-based content extractors (`extractDescription`,
`extractImport`, `extractUsage`).

Strings are modelled by Lean `String` (a wrapper around `List Char`);
JavaScript `String.prototype.includes` is modelled by an executable
substring test proved equivalent to `List.IsInfix`; the fixed regular
expressions of the extractors are modelled by deterministic leftmost-match
scanners (each of the source patterns is backtracking-free, so maximal
munch is exact).  JavaScript `toLowerCase`/`toUpperCase` are modelled by
`Char.toLower`/`Char.toUpper`, which agree with them on the basic latin
range used by the catalog.
-/

/-- The whitespace characters of the JavaScript regex class `\s`
(ASCII part; the catalog and the queries of interest are ASCII). -/
def isJsSpace (c : Char) : Bool :=
  c = ' ' || c = '\t' || c = '\n' || c = '\x0d' || c = '\x0b' || c = '\x0c'

/-- JavaScript `hay.includes(needle)`: substring test on character lists. -/
def listIncludes (hay needle : List Char) : Bool :=
  needle.isPrefixOf hay ||
    match hay with
    | [] => false
    | _ :: t => listIncludes t needle

theorem listIncludes_iff (hay needle : List Char) :
    listIncludes hay needle = true ↔ needle <:+: hay := by
  induction hay with
  | nil =>
    simp [listIncludes, List.infix_nil, List.isPrefixOf_iff_prefix,
      List.prefix_nil]
  | cons a t ih =>
    rw [listIncludes]
    simp [ List.isPrefixOf_iff_prefix, ih, List.infix_cons_iff]

/-- The static catalog `COMPONENTS` (`src/index.ts` lines 13-24). -/
def COMPONENTS : List String :=
  ["Accordion", "Alert", "App Bar", "Autocomplete", "Avatar", "Backdrop",
   "Badge", "Bottom Navigation", "Box", "Breadcrumbs", "Button", "Button Group",
   "Card", "Checkbox", "Chip", "Circular Progress", "Click Away Listener",
   "Container", "CSS Baseline", "Dialog", "Divider", "Drawer",
   "Floating Action Button", "Grid", "Image List", "Linear Progress", "Link",
   "List", "Masonry", "Menu", "Modal", "Pagination", "Paper", "Popover",
   "Popper", "Portal", "Radio Button", "Rating", "Select", "Skeleton",
   "Slider", "Snackbar", "Speed Dial", "Stack", "Stepper", "Switch",
   "Table", "Tabs", "Text Field", "Textarea Autosize", "Timeline",
   "Toggle Button", "Tooltip", "Transfer List", "Tree View", "Typography"]

/-- The category map `COMPONENT_MAP` (`src/index.ts` lines 27-42), in its
declaration order. -/
def COMPONENT_MAP : List (String × List String) :=
  [("form", ["Text Field", "Select", "Checkbox", "Radio Button", "Switch",
             "Slider", "Autocomplete", "Toggle Button"]),
   ("input", ["Text Field", "Autocomplete", "Select", "Textarea Autosize"]),
   ("button", ["Button", "Floating Action Button", "Button Group",
               "Toggle Button"]),
   ("navigation", ["App Bar", "Bottom Navigation", "Breadcrumbs", "Drawer",
                   "Link", "Menu", "Stepper", "Tabs"]),
   ("layout", ["Box", "Container", "Grid", "Stack", "Image List", "Masonry"]),
   ("data", ["Table", "List", "Transfer List", "Tree View", "Pagination"]),
   ("feedback", ["Alert", "Backdrop", "Dialog", "Progress",
                 "Circular Progress", "Linear Progress", "Skeleton",
                 "Snackbar"]),
   ("overlay", ["Modal", "Popover", "Popper", "Tooltip", "Menu", "Drawer",
                "Dialog"]),
   ("surface", ["Card", "Paper", "Accordion"]),
   ("display", ["Avatar", "Badge", "Chip", "Divider", "Typography",
                "Timeline"]),
   ("selection", ["Checkbox", "Radio Button", "Select", "Switch",
                  "Autocomplete"]),
   ("notification", ["Alert", "Snackbar"]),
   ("loading", ["Circular Progress", "Linear Progress", "Skeleton",
                "Backdrop"]),
   ("utility", ["Click Away Listener", "CSS Baseline", "Portal", "No SSR"])]

/-- JavaScript `s.toLowerCase()` (per-character lowering; exact on the
basic latin range the catalog uses). -/
def lowerStr (s : String) : String :=
  ⟨s.data.map Char.toLower⟩

/-- `replace(/\s+/g, "-")`: each maximal whitespace run becomes one
hyphen.  The boolean argument records whether the previous character was
inside a whitespace run. -/
def collapseWsAux : Bool → List Char → List Char
  | _, [] => []
  | prevSpace, c :: cs =>
    if isJsSpace c then
      if prevSpace then collapseWsAux true cs
      else '-' :: collapseWsAux true cs
    else c :: collapseWsAux false cs

/-- `toKebabCase` (`src/index.ts` lines 45-49): lowercase, then replace
whitespace runs by single hyphens. -/
def toKebabCase (name : String) : String :=
  ⟨collapseWsAux false (name.data.map Char.toLower)⟩

/-- `getComponentUrl` (`src/index.ts` lines 52-55). -/
def getComponentUrl (component : String) : String :=
  ("https://mui.com/material-ui/react-") ++ toKebabCase component ++ ("/")

/-- The `list_components` tool body (`src/index.ts` lines 91-107) maps the
catalog, in order, to (display name, kebab-case key) entries. -/
def list_components_entries : List (String × String) :=
  COMPONENTS.map (fun name => (name, toKebabCase name))

/-- `matches.add(c)` on a JavaScript `Set` iterated in insertion order:
append unless already present. -/
def jsSetAdd (acc : List String) (c : String) : List String :=
  if c ∈ acc then acc else acc ++ [c]

/-- Add every element of `cs` to the set (the inner loop of the category
pass of `search_components`). -/
def addAll (acc : List String) (cs : List String) : List String :=
  cs.foldl jsSetAdd acc

/-- The category pass of `search_components` (`src/index.ts` lines
291-297) over an explicit category table. -/
def categoryPassAux (lq : String) (M : List (String × List String))
    (acc : List String) : List String :=
  M.foldl
    (fun acc p => if listIncludes lq.data p.1.data then addAll acc p.2 else acc)
    acc

/-- The name pass of `search_components` (`src/index.ts` lines 300-304)
over an explicit component list. -/
def namePassAux (lq : String) (cs : List String) (acc : List String) :
    List String :=
  cs.foldl
    (fun acc c =>
      if listIncludes (lowerStr c).data lq.data then jsSetAdd acc c else acc)
    acc

/-- The match set built by `search_components` (`src/index.ts` lines
287-304): the category pass over `COMPONENT_MAP`, then the name pass over
`COMPONENTS`, dedup via `Set` insertion. -/
def search_matches (query : String) : List String :=
  namePassAux (lowerStr query) COMPONENTS
    (categoryPassAux (lowerStr query) COMPONENT_MAP [])

/-- The empty-result hint text of `search_components` (`src/index.ts`
line 311). -/
def noMatchText (query : String) : String :=
  ("No components found matching \x27") ++ query ++
    ("\x27.\n\nTry broader terms like: form, navigation, overlay, feedback, data, layout, input, button")

/-- One entry of the formatted result list (`src/index.ts` lines 317-323). -/
def resultEntry (name : String) : String :=
  ("- ") ++ name ++ (" (") ++ toKebabCase name ++ (")\n  ") ++
    getComponentUrl name

/-- The `search_components` tool body (`src/index.ts` lines 286-333),
returning the text of the single content block. -/
def search_components (query : String) : String :=
  let ms := search_matches query
  if ms.isEmpty then
    noMatchText query
  else
    ("# Components matching \x22") ++ query ++ ("\x22 (") ++
      toString ms.length ++ (" found)\n\n") ++
      String.intercalate ("\n") (ms.map resultEntry) ++
      ("\n\nUse get_component_info with the kebab-case name for details.")

/-- Case-insensitive literal matcher (the fixed parts of the source
regexes under the `/i` flag): match the pattern at the head of the input,
returning the remainder. -/
def matchLitCI : List Char → List Char → Option (List Char)
  | [], rest => some rest
  | _ :: _, [] => none
  | p :: ps, c :: cs =>
    if c.toLower = p.toLower then matchLitCI ps cs else none

/-- `\s+` at the head of the input: one or more whitespace characters,
maximal munch (exact here, as every source pattern follows `\s+` with a
non-whitespace literal). -/
def matchWs1 : List Char → Option (List Char)
  | [] => none
  | c :: cs => if isJsSpace c then some (cs.dropWhile isJsSpace) else none

/-- Match `<meta\s+name="description"\s+content="([^"]+)"` (the first
regex of `extractDescription`, `src/index.ts` lines 60-62) at the head of
the input, returning the capture group.  The pattern is
backtracking-free: `[^"]+` followed by `"` is a maximal munch up to the
next quote. -/
def matchMetaAt : List Char → Option (List Char)
  | [] => none
  | c0 :: l =>
    if c0 = '<' then
      (matchLitCI (("meta").data) l).bind fun r1 =>
      (matchWs1 r1).bind fun r2 =>
      (matchLitCI (("name=\x22description\x22").data) r2).bind fun r3 =>
      (matchWs1 r3).bind fun r4 =>
      (matchLitCI (("content=\x22").data) r4).bind fun r5 =>
      let cap := r5.takeWhile (fun c => c ≠ '\x22')
      match r5.dropWhile (fun c => c ≠ '\x22') with
      | '\x22' :: _ => if cap.isEmpty then none else some cap
      | _ => none
    else none

/-- Match `<p[^>]*>([^<]+)<\/p>` (the fallback regex of
`extractDescription`, `src/index.ts` line 65) at the head of the input,
returning the capture group. -/
def matchPAt : List Char → Option (List Char)
  | [] => none
  | c0 :: l =>
    if c0 = '<' then
      (matchLitCI (("p").data) l).bind fun r1 =>
      match r1.dropWhile (fun c => c ≠ '>') with
      | '>' :: r2 =>
        let cap := r2.takeWhile (fun c => c ≠ '<')
        if cap.isEmpty then none
        else
          match matchLitCI (("</p>").data) (r2.dropWhile (fun c => c ≠ '<')) with
          | some _ => some cap
          | none => none
      | _ => none
    else none

/-- Match `<code[^>]*>([^<]+)<\/code>` (the regex of `extractUsage`,
`src/index.ts` line 83) at the head of the input, returning the capture
group. -/
def matchCodeAt : List Char → Option (List Char)
  | [] => none
  | c0 :: l =>
    if c0 = '<' then
      (matchLitCI (("code").data) l).bind fun r1 =>
      match r1.dropWhile (fun c => c ≠ '>') with
      | '>' :: r2 =>
        let cap := r2.takeWhile (fun c => c ≠ '<')
        if cap.isEmpty then none
        else
          match matchLitCI (("</code>").data) (r2.dropWhile (fun c => c ≠ '<')) with
          | some _ => some cap
          | none => none
      | _ => none
    else none

/-- Leftmost match: JavaScript `String.prototype.match` tries the pattern
at every position, left to right. -/
def scanFirst (m : List Char → Option (List Char)) :
    List Char → Option (List Char)
  | [] => m []
  | c :: t =>
    match m (c :: t) with
    | some r => some r
    | none => scanFirst m t

/-- `extractDescription` (`src/index.ts` lines 58-67): meta description
first, then first simple paragraph, then the literal fallback. -/
def extractDescription (html : String) : String :=
  match scanFirst matchMetaAt html.data with
  | some cap => ⟨cap⟩
  | none =>
    match scanFirst matchPAt html.data with
    | some cap => ⟨cap⟩
    | none => ("Component description not available")

/-- `extractUsage` (`src/index.ts` lines 81-87): first inline code
element, wrapped in a fenced block, else the literal fallback. -/
def extractUsage (html : String) : String :=
  match scanFirst matchCodeAt html.data with
  | some cap => ("```tsx\n") ++ (⟨cap⟩ : String) ++ ("\n```")
  | none => ("See documentation for usage examples.")

/-- Expect one exact character at the head of the input. -/
def expectChar (c : Char) : List Char → Option (List Char)
  | [] => none
  | a :: as => if a = c then some as else none

/-- Expect the quote class of the import regex (a double or single
quote character) at the head of the input. -/
def expectQuote : List Char → Option (List Char)
  | [] => none
  | a :: as => if a = '\x22' || a = '\x27' then some as else none

/-- Match the dynamic import regex of `extractImport` (`src/index.ts`
lines 71-73) -- import, optional spaces, a braced name list that must
contain NAME, then from and a quoted @mui/material --
under `/i`, at the head of the input, returning the remainder after the
match.  `[^}]*NAME[^}]*}` holds exactly when the segment up to the first
closing brace contains NAME case-insensitively (the interpolated NAME is
treated literally; catalog-derived names contain no regex
metacharacters and no brace). -/
def importRemainder (name : List Char) (l : List Char) :
    Option (List Char) := do
  let r1 ← matchLitCI (("import").data) l
  let r2 := r1.dropWhile isJsSpace
  let r3 ← expectChar ('\x7b') r2
  let seg := r3.takeWhile (fun c => c ≠ '\x7d')
  if listIncludes (seg.map Char.toLower) (name.map Char.toLower) then
    let r4 ← expectChar ('\x7d') (r3.dropWhile (fun c => c ≠ '\x7d'))
    let r5 := r4.dropWhile isJsSpace
    let r6 ← matchLitCI (("from").data) r5
    let r7 := r6.dropWhile isJsSpace
    let r8 ← expectQuote r7
    let r9 ← matchLitCI (("@mui/material").data) r8
    expectQuote r9
  else none

/-- The characters the match at this position consumed (`match[0]`). -/
def consumedOf (l r : List Char) : List Char :=
  l.take (l.length - r.length)

/-- Leftmost match returning the full matched text (`match[0]`). -/
def scanFirstConsumed (m : List Char → Option (List Char)) :
    List Char → Option (List Char)
  | [] =>
    match m [] with
    | some r => some (consumedOf [] r)
    | none => none
  | c :: t =>
    match m (c :: t) with
    | some r => some (consumedOf (c :: t) r)
    | none => scanFirstConsumed m t

/-- `extractImport` (`src/index.ts` lines 69-79): the first import-regex
match, else a synthesized default import for the space-stripped name. -/
def extractImport (html componentName : String) : String :=
  let pascalName := componentName.data.filter (fun c => !(isJsSpace c))
  match scanFirstConsumed (importRemainder pascalName) html.data with
  | some matched => ⟨matched⟩
  | none =>
    ("import \x7b ") ++ (⟨pascalName⟩ : String) ++
      (" \x7d from \x27@mui/material\x27;")

/-- JavaScript `component.split("-")` on character lists: hyphen-separated
segments, empty segments preserved. -/
def splitHyphens : List Char → List (List Char)
  | [] => [[]]
  | c :: cs =>
    if c = '-' then [] :: splitHyphens cs
    else
      match splitHyphens cs with
      | [] => [[c]]
      | h :: t => (c :: h) :: t

/-- `w.charAt(0).toUpperCase() + w.slice(1)` (empty word maps to itself). -/
def capWord : List Char → List Char
  | [] => []
  | c :: cs => c.toUpper :: cs

/-- JavaScript `Array.prototype.join` with a one-character separator. -/
def joinWords (sep : Char) : List (List Char) → List Char
  | [] => []
  | [w] => w
  | w :: ws => w ++ sep :: joinWords sep ws

/-- The inline key-to-title transform of `get_component_info`
(`src/index.ts` line 137):
`component.split("-").map(w => w.charAt(0).toUpperCase() + w.slice(1)).join(" ")`. -/
def keyToTitle (component : String) : String :=
  ⟨joinWords ' ' ((splitHyphens component.data).map capWord)⟩

/-- Outcome of the single outbound `fetch` of `get_component_info`:
either a response (status and body text) or a thrown transport exception
whose message has already been rendered
(`error instanceof Error ? error.message : String(error)`). -/
inductive FetchResult where
  | success (status : Nat) (body : String)
  | failure (msg : String)

/-- `Response.ok`: status in the inclusive range 200-299. -/
def responseOk (status : Nat) : Bool :=
  200 ≤ status && status ≤ 299

/-- The fixed not-found message of `get_component_info`
(`src/index.ts` line 127), as the spec states it. -/
def notFoundText (component : String) : String :=
  ("Error: Component \x27") ++ component ++
    ("\x27 not found. Use list_components to see available components.")

/-- The formatted transport-error message of `get_component_info`
(`src/index.ts` line 153), as the spec states it. -/
def fetchErrorText (msg : String) : String :=
  ("Error fetching component info: ") ++ msg

/-- The documentation URL built by `get_component_info`
(`src/index.ts` line 118) from the raw caller-supplied key. -/
def componentUrlOfKey (component : String) : String :=
  ("https://mui.com/material-ui/react-") ++ component ++ ("/")

/-- The success-path output shape stated by the spec: a fixed template
over exactly the key-derived title, the extracted description, the
extracted import statement, and the documentation URL. -/
def successText (componentTitle description importStatement url : String) :
    String :=
  ("# ") ++ componentTitle ++ (" Component\n\n") ++ description ++
    ("\n\n## Import\n```tsx\n") ++ importStatement ++
    ("\n```\n\n## Documentation\nFull documentation: ") ++ url ++
    ("\n\nFor API reference and props, visit the API tab on the documentation page.\n\n## Related Resources\n- Check the documentation page for live demos and examples\n- Use get_customization_guide for theming and styling options\n- Use search_components to find related components")

/-- The `get_component_info` tool body (`src/index.ts` lines 110-159),
parameterized over the outcome of the outbound fetch; returns the text of
the single content block.  Totality of this function models the
catch-all: no path raises to the Host. -/
def get_component_info (component : String) (result : FetchResult) :
    String :=
  match result with
  | .failure msg => ("Error fetching component info: ") ++ msg
  | .success status body =>
    if responseOk status = false then
      ("Error: Component \x27") ++ component ++
        ("\x27 not found. Use list_components to see available components.")
    else
      let description := extractDescription body
      let componentTitle := keyToTitle component
      let importStatement := extractImport body componentTitle
      ("# ") ++ componentTitle ++ (" Component\n\n") ++ description ++
        ("\n\n## Import\n```tsx\n") ++ importStatement ++
        ("\n```\n\n## Documentation\nFull documentation: ") ++
        componentUrlOfKey component ++
        ("\n\nFor API reference and props, visit the API tab on the documentation page.\n\n## Related Resources\n- Check the documentation page for live demos and examples\n- Use get_customization_guide for theming and styling options\n- Use search_components to find related components")

/-- The 26 basic latin capital letters. -/
def upperChars : List Char :=
  ['A', 'B', 'C', 'D', 'E', 'F', 'G', 'H', 'I', 'J', 'K', 'L', 'M',
   'N', 'O', 'P', 'Q', 'R', 'S', 'T', 'U', 'V', 'W', 'X', 'Y', 'Z']

/-- The 26 basic latin small letters. -/
def lowerChars : List Char :=
  ['a', 'b', 'c', 'd', 'e', 'f', 'g', 'h', 'i', 'j', 'k', 'l', 'm',
   'n', 'o', 'p', 'q', 'r', 's', 't', 'u', 'v', 'w', 'x', 'y', 'z']

/-- A simple capitalized word: one capital letter followed by small
letters. -/
def isSimpleCapWord : List Char → Bool
  | [] => false
  | c :: cs =>
    decide (c ∈ upperChars) && cs.all (fun x => decide (x ∈ lowerChars))

theorem mem_jsSetAdd {acc : List String} {c x : String} :
    x ∈ jsSetAdd acc c ↔ x ∈ acc ∨ x = c := by
  unfold jsSetAdd
  split
  · rename_i h
    constructor
    · exact Or.inl
    · rintro (hx | rfl)
      · exact hx
      · exact h
  · simp [List.mem_append]

theorem nodup_jsSetAdd {acc : List String} {c : String} (h : acc.Nodup) :
    (jsSetAdd acc c).Nodup := by
  unfold jsSetAdd
  split
  · exact h
  · rename_i hc
    simp [List.nodup_append, h, hc]

theorem mem_addAll {cs : List String} {acc : List String} {x : String} :
    x ∈ addAll acc cs ↔ x ∈ acc ∨ x ∈ cs := by
  induction cs generalizing acc with
  | nil => simp [addAll]
  | cons c cs ih =>
    have h1 : addAll acc (c :: cs) = addAll (jsSetAdd acc c) cs := rfl
    rw [h1, ih, mem_jsSetAdd]
    simp [List.mem_cons, or_assoc]

theorem nodup_addAll {cs : List String} {acc : List String}
    (h : acc.Nodup) : (addAll acc cs).Nodup := by
  induction cs generalizing acc with
  | nil => exact h
  | cons c cs ih => exact ih (nodup_jsSetAdd h)

theorem mem_categoryPassAux {M : List (String × List String)} {lq : String}
    {acc : List String} {x : String} :
    x ∈ categoryPassAux lq M acc ↔
      x ∈ acc ∨ ∃ p ∈ M, listIncludes lq.data p.1.data = true ∧ x ∈ p.2 := by
  induction M generalizing acc with
  | nil => simp [categoryPassAux]
  | cons p M ih =>
    have h1 : categoryPassAux lq (p :: M) acc =
        categoryPassAux lq M
          (if listIncludes lq.data p.1.data then addAll acc p.2 else acc) :=
      rfl
    rw [h1, ih, List.exists_mem_cons_iff]
    by_cases hp : listIncludes lq.data p.1.data = true
    · simp [hp, mem_addAll]
      tauto
    · simp [hp]

theorem nodup_categoryPassAux {M : List (String × List String)}
    {lq : String} {acc : List String} (h : acc.Nodup) :
    (categoryPassAux lq M acc).Nodup := by
  induction M generalizing acc with
  | nil => exact h
  | cons p M ih =>
    have h1 : categoryPassAux lq (p :: M) acc =
        categoryPassAux lq M
          (if listIncludes lq.data p.1.data then addAll acc p.2 else acc) :=
      rfl
    rw [h1]
    apply ih
    split
    · exact nodup_addAll h
    · exact h

theorem mem_namePassAux {cs : List String} {lq : String} {acc : List String}
    {x : String} :
    x ∈ namePassAux lq cs acc ↔
      x ∈ acc ∨ (x ∈ cs ∧ listIncludes (lowerStr x).data lq.data = true) := by
  induction cs generalizing acc with
  | nil => simp [namePassAux]
  | cons c cs ih =>
    have h1 : namePassAux lq (c :: cs) acc =
        namePassAux lq cs
          (if listIncludes (lowerStr c).data lq.data then jsSetAdd acc c
           else acc) := rfl
    rw [h1, ih]
    by_cases hc : listIncludes (lowerStr c).data lq.data = true
    · simp only [hc, if_true, mem_jsSetAdd, List.mem_cons]
      constructor
      · rintro ((hx | rfl) | ⟨hxs, hcond⟩)
        · exact Or.inl hx
        · exact Or.inr ⟨Or.inl rfl, hc⟩
        · exact Or.inr ⟨Or.inr hxs, hcond⟩
      · rintro (hx | ⟨(rfl | hxs), hcond⟩)
        · exact Or.inl (Or.inl hx)
        · exact Or.inl (Or.inr rfl)
        · exact Or.inr ⟨hxs, hcond⟩
    · simp only [hc, if_false, List.mem_cons]
      constructor
      · rintro (hx | ⟨hxs, hcond⟩)
        · exact Or.inl hx
        · exact Or.inr ⟨Or.inr hxs, hcond⟩
      · rintro (hx | ⟨(rfl | hxs), hcond⟩)
        · exact Or.inl hx
        · exact absurd hcond hc
        · exact Or.inr ⟨hxs, hcond⟩

theorem nodup_namePassAux {cs : List String} {lq : String}
    {acc : List String} (h : acc.Nodup) : (namePassAux lq cs acc).Nodup := by
  induction cs generalizing acc with
  | nil => exact h
  | cons c cs ih =>
    have h1 : namePassAux lq (c :: cs) acc =
        namePassAux lq cs
          (if listIncludes (lowerStr c).data lq.data then jsSetAdd acc c
           else acc) := rfl
    rw [h1]
    apply ih
    split
    · exact nodup_jsSetAdd h
    · exact h

theorem nodup_search_matches (q : String) : (search_matches q).Nodup :=
  nodup_namePassAux (nodup_categoryPassAux List.nodup_nil)

/-- C1: for every query, the match set of `search_components` is exactly
the deduplicated union of (1) the components of every category whose
label is a substring of the lowercased query and (2) the components whose
lowercased display name contains the lowercased query; when it is empty
the tool returns the empty-result hint text instead of a match list. -/
theorem search_components_characterization (q : String) :
    (∀ name, name ∈ search_matches q ↔
      ((∃ p ∈ COMPONENT_MAP, p.1.data <:+: (lowerStr q).data ∧ name ∈ p.2) ∨
       (name ∈ COMPONENTS ∧ (lowerStr q).data <:+: (lowerStr name).data)))
    ∧ (search_matches q).Nodup
    ∧ (search_matches q = [] → search_components q = noMatchText q) := by
  refine ⟨fun name => ?_, nodup_search_matches q, fun h => ?_⟩
  · unfold search_matches
    rw [mem_namePassAux, mem_categoryPassAux]
    simp only [listIncludes_iff, List.not_mem_nil, false_or]
  · unfold search_components
    simp [h]

theorem search_components_characterization_witness :
    search_components ("zzz-nonexistent") = noMatchText ("zzz-nonexistent") :=
  (search_components_characterization ("zzz-nonexistent")).2.2 (by decide)

/-- C2 as stated is refuted: the static catalog holds 56 components, not
54, so the enumerate-all list has length 56. -/
theorem list_components_length_ne_54 :
    list_components_entries.length ≠ 54 := by decide

set_option maxRecDepth 8192 in
/-- C2 (amended): the enumerate-all operation returns a list whose length
equals the fixed catalog size of 56 components, listing the catalog in
its fixed declaration order (the operation is a pure function of the
constant catalog, hence stable across repeated calls). -/
theorem list_components_length_spec :
    list_components_entries.length = 56 ∧
      list_components_entries.map Prod.fst = COMPONENTS := by
  constructor
  · decide
  · decide

/-- C6: `search("form")` contains the whole `form` category and nothing
that is neither in that category nor a lowercased-name substring match
for `"form"`. -/
theorem search_form_spec :
    (∀ name ∈ [("Text Field"), ("Select"), ("Checkbox"), ("Radio Button"),
               ("Switch"), ("Slider"), ("Autocomplete"), ("Toggle Button")],
      name ∈ search_matches ("form")) ∧
    (∀ name ∈ search_matches ("form"),
      (∃ p ∈ COMPONENT_MAP, p.1 = ("form") ∧ name ∈ p.2) ∨
        (("form") : String).data <:+: (lowerStr name).data) := by decide

theorem search_form_spec_witness :
    ("Text Field") ∈ search_matches ("form") :=
  search_form_spec.1 ("Text Field") (by decide)

set_option maxRecDepth 32768 in
/-- C8: the empty query matches no category label but every component
display name, so search returns the whole catalog rather than the
empty-result hint. -/
theorem search_empty_query_spec :
    search_matches ("") = COMPONENTS ∧
      search_components ("") ≠ noMatchText ("") := by
  constructor
  · rfl
  · decide

/-- C9: the category map mentions names outside the static catalog, so
search results are not always catalog components: "feedback" yields
"Progress" and "utility" yields "No SSR", neither of which is in
`COMPONENTS`. -/
theorem search_beyond_catalog :
    ("Progress") ∈ search_matches ("feedback") ∧
      ("Progress") ∉ COMPONENTS ∧
      ("No SSR") ∈ search_matches ("utility") ∧
      ("No SSR") ∉ COMPONENTS := by decide

/-- C4: for every caller-supplied key and every non-OK response status,
`get_component_info` returns the fixed not-found message referencing
`list_components`; the message does not mention the status (so 404 and
500 are not distinguished), and the handler is a total function (no
exception reaches the Host). -/
theorem get_component_info_not_found (component : String) (status : Nat)
    (body : String) (h : responseOk status = false) :
    get_component_info component (.success status body) =
      notFoundText component := by
  unfold get_component_info notFoundText
  simp [h]

theorem get_component_info_not_found_witness :
    get_component_info ("nonexistent-component") (.success 404 ("")) =
      notFoundText ("nonexistent-component") :=
  get_component_info_not_found ("nonexistent-component") 404 ("")
    (by decide)

/-- C5: every exception thrown during the outbound fetch is converted at
the call boundary into the formatted error text carrying the exception
message; the handler is total, so no fault propagates to the Host. -/
theorem get_component_info_fetch_error (component msg : String) :
    get_component_info component (.failure msg) = fetchErrorText msg := rfl

/-- C10: on the success path the output of `get_component_info` is the
fixed template over exactly the key-derived title, the extracted
description, the extracted import statement, and the documentation URL;
in particular it does not depend on any other feature of the body (such
as the usage snippet `extractUsage` would compute), so two bodies with
equal description and import extraction yield identical output. -/
theorem get_component_info_success_spec (component : String) (status : Nat)
    (b b2 : String) (h : responseOk status = true)
    (hd : extractDescription b = extractDescription b2)
    (hi : extractImport b (keyToTitle component) =
      extractImport b2 (keyToTitle component)) :
    get_component_info component (.success status b) =
      successText (keyToTitle component) (extractDescription b)
        (extractImport b (keyToTitle component)) (componentUrlOfKey component)
    ∧ get_component_info component (.success status b) =
      get_component_info component (.success status b2) := by
  unfold get_component_info successText
  simp [h, hd, hi]

theorem get_component_info_success_spec_witness :
    get_component_info ("table") (.success 200 ("")) =
      successText (keyToTitle ("table")) (extractDescription (""))
        (extractImport ("") (keyToTitle ("table")))
        (componentUrlOfKey ("table")) :=
  (get_component_info_success_spec ("table") 200 ("") ("") (by decide)
    rfl rfl).1

theorem toUpper_toLower_of_upper {c : Char} (h : c ∈ upperChars) :
    (c.toLower).toUpper = c := by
  unfold upperChars at h
  fin_cases h <;> rfl

theorem toLower_mem_lowerChars {c : Char} (h : c ∈ upperChars) :
    c.toLower ∈ lowerChars := by
  unfold upperChars at h
  fin_cases h <;> decide

theorem toLower_of_mem_lowerChars {c : Char} (h : c ∈ lowerChars) :
    c.toLower = c := by
  unfold lowerChars at h
  fin_cases h <;> rfl

theorem lowerChar_not_space {c : Char} (h : c ∈ lowerChars) :
    isJsSpace c = false := by
  unfold lowerChars at h
  fin_cases h <;> rfl

theorem lowerChar_ne_hyphen {c : Char} (h : c ∈ lowerChars) :
    c ≠ '-' := by
  unfold lowerChars at h
  fin_cases h <;> decide

theorem simpleCapWord_lower_mem {w : List Char}
    (h : isSimpleCapWord w = true) :
    ∀ c ∈ w.map Char.toLower, c ∈ lowerChars := by
  cases w with
  | nil => simp [isSimpleCapWord] at h
  | cons c cs =>
    simp only [isSimpleCapWord, Bool.and_eq_true, decide_eq_true_eq,
      List.all_eq_true] at h
    obtain ⟨hc, hcs⟩ := h
    intro x hx
    simp only [List.map_cons, List.mem_cons, List.mem_map] at hx
    rcases hx with rfl | ⟨y, hy, rfl⟩
    · exact toLower_mem_lowerChars hc
    · rw [toLower_of_mem_lowerChars (hcs y hy)]
      exact hcs y hy

theorem capWord_map_toLower {w : List Char} (h : isSimpleCapWord w = true) :
    capWord (w.map Char.toLower) = w := by
  cases w with
  | nil => simp [isSimpleCapWord] at h
  | cons c cs =>
    simp only [isSimpleCapWord, Bool.and_eq_true, decide_eq_true_eq,
      List.all_eq_true] at h
    obtain ⟨hc, hcs⟩ := h
    simp only [List.map_cons, capWord, List.cons.injEq]
    refine ⟨toUpper_toLower_of_upper hc, ?_⟩
    calc cs.map Char.toLower
        = cs.map id :=
          List.map_congr_left fun x hx =>
            toLower_of_mem_lowerChars (hcs x hx)
      _ = cs := List.map_id cs

theorem map_toLower_joinWords (ws : List (List Char)) :
    (joinWords ' ' ws).map Char.toLower =
      joinWords ' ' (ws.map (List.map Char.toLower)) := by
  induction ws with
  | nil => rfl
  | cons w ws ih =>
    cases ws with
    | nil => rfl
    | cons w2 ws2 =>
      show (w ++ ' ' :: joinWords ' ' (w2 :: ws2)).map Char.toLower = _
      simp only [List.map_append, List.map_cons]
      rw [ih]
      rfl

theorem collapseWsAux_append_nonspace (w : List Char)
    (hw : ∀ c ∈ w, isJsSpace c = false) (hne : w ≠ []) (b : Bool)
    (l : List Char) :
    collapseWsAux b (w ++ l) = w ++ collapseWsAux false l := by
  induction w generalizing b with
  | nil => exact absurd rfl hne
  | cons c w ih =>
    have hc : isJsSpace c = false := hw c (by simp)
    by_cases hw2 : w = []
    · subst hw2
      simp [collapseWsAux, hc]
    · show collapseWsAux b (c :: (w ++ l)) = _
      simp only [collapseWsAux, hc, Bool.false_eq_true, if_false,
        List.cons_append]
      rw [ih (fun x hx => hw x (by simp [hx])) hw2 false]

theorem collapseWs_joinWords (ws : List (List Char))
    (hws : ∀ w ∈ ws, w ≠ [] ∧ ∀ c ∈ w, isJsSpace c = false)
    (hne : ws ≠ []) (b : Bool) :
    collapseWsAux b (joinWords ' ' ws) = joinWords '-' ws := by
  induction ws generalizing b with
  | nil => exact absurd rfl hne
  | cons w ws ih =>
    obtain ⟨hwne, hwns⟩ := hws w (by simp)
    cases ws with
    | nil =>
      have h1 := collapseWsAux_append_nonspace w hwns hwne b []
      simpa [joinWords, collapseWsAux] using h1
    | cons w2 ws2 =>
      show collapseWsAux b (w ++ ' ' :: joinWords ' ' (w2 :: ws2)) =
        w ++ '-' :: joinWords '-' (w2 :: ws2)
      rw [collapseWsAux_append_nonspace w hwns hwne b]
      simp only [collapseWsAux, isJsSpace]
      norm_num
      exact ih (fun x hx => hws x (by simp [hx])) (by simp) true

theorem splitHyphens_word (w : List Char) (hw : ∀ c ∈ w, c ≠ '-') :
    splitHyphens w = [w] := by
  induction w with
  | nil => rfl
  | cons c w ih =>
    have hc : c ≠ '-' := hw c (by simp)
    simp only [splitHyphens, hc, if_false,
      ih (fun x hx => hw x (by simp [hx]))]

theorem splitHyphens_word_append (w t : List Char)
    (hw : ∀ c ∈ w, c ≠ '-') :
    splitHyphens (w ++ '-' :: t) = w :: splitHyphens t := by
  induction w with
  | nil => simp [splitHyphens]
  | cons c w ih =>
    have hc : c ≠ '-' := hw c (by simp)
    have ih2 := ih (fun x hx => hw x (by simp [hx]))
    show splitHyphens (c :: (w ++ '-' :: t)) = _
    simp only [splitHyphens, hc, if_false]
    rw [ih2]

theorem splitHyphens_joinWords (ws : List (List Char)) (hne : ws ≠ [])
    (hws : ∀ w ∈ ws, ∀ c ∈ w, c ≠ '-') :
    splitHyphens (joinWords '-' ws) = ws := by
  induction ws with
  | nil => exact absurd rfl hne
  | cons w ws ih =>
    cases ws with
    | nil => exact splitHyphens_word w (hws w (by simp))
    | cons w2 ws2 =>
      show splitHyphens (w ++ '-' :: joinWords '-' (w2 :: ws2)) = _
      rw [splitHyphens_word_append w _ (hws w (by simp))]
      rw [ih (by simp) (fun x hx => hws x (by simp [hx]))]

/-- C7: the round trip `keyToTitle (toKebabCase x)` restores every
display name composed of simple space-separated capitalized words (one
capital letter followed by small letters per word). -/
theorem keyToTitle_toKebabCase_roundtrip (x : String)
    (ws : List (List Char)) (hx : x.data = joinWords ' ' ws)
    (hne : ws ≠ []) (hws : ∀ w ∈ ws, isSimpleCapWord w = true) :
    keyToTitle (toKebabCase x) = x := by
  have hlmem : ∀ w ∈ ws.map (List.map Char.toLower), ∀ c ∈ w,
      c ∈ lowerChars := by
    intro w hw
    simp only [List.mem_map] at hw
    obtain ⟨w0, hw0, rfl⟩ := hw
    exact simpleCapWord_lower_mem (hws w0 hw0)
  have hlne : ws.map (List.map Char.toLower) ≠ [] := by
    simpa using hne
  have hprops : ∀ w ∈ ws.map (List.map Char.toLower),
      w ≠ [] ∧ ∀ c ∈ w, isJsSpace c = false := by
    intro w hw
    refine ⟨?_, fun c hc => lowerChar_not_space (hlmem w hw c hc)⟩
    simp only [List.mem_map] at hw
    obtain ⟨w0, hw0, rfl⟩ := hw
    intro habs
    have := hws w0 hw0
    rcases w0 with _ | ⟨c, cs⟩
    · simp [isSimpleCapWord] at this
    · simp at habs
  have hhyph : ∀ w ∈ ws.map (List.map Char.toLower), ∀ c ∈ w, c ≠ '-' :=
    fun w hw c hc => lowerChar_ne_hyphen (hlmem w hw c hc)
  have step1 : (joinWords ' ' ws).map Char.toLower =
      joinWords ' ' (ws.map (List.map Char.toLower)) :=
    map_toLower_joinWords ws
  have step2 : collapseWsAux false
      (joinWords ' ' (ws.map (List.map Char.toLower))) =
      joinWords '-' (ws.map (List.map Char.toLower)) :=
    collapseWs_joinWords _ hprops hlne false
  have step3 : splitHyphens (joinWords '-' (ws.map (List.map Char.toLower)))
      = ws.map (List.map Char.toLower) :=
    splitHyphens_joinWords _ hlne hhyph
  have step4 : (ws.map (List.map Char.toLower)).map capWord = ws := by
    rw [List.map_map]
    calc ws.map (capWord ∘ List.map Char.toLower)
        = ws.map id :=
          List.map_congr_left fun w hw => capWord_map_toLower (hws w hw)
      _ = ws := List.map_id ws
  cases x with
  | mk d =>
    apply congrArg String.mk
    have hd : d = joinWords ' ' ws := hx
    rw [show (toKebabCase ⟨d⟩).data =
        collapseWsAux false (d.map Char.toLower) from rfl]
    rw [hd, step1, step2, step3, step4]

theorem keyToTitle_toKebabCase_roundtrip_witness :
    keyToTitle (toKebabCase ("Text Field")) = ("Text Field") :=
  keyToTitle_toKebabCase_roundtrip ("Text Field")
    ([['T', 'e', 'x', 't'], ['F', 'i', 'e', 'l', 'd']]) (by decide)
    (by decide) (by decide)

theorem scanFirst_cons_none (m : List Char → Option (List Char)) (c : Char)
    (t : List Char) (h : m (c :: t) = none) :
    scanFirst m (c :: t) = scanFirst m t := by
  simp [scanFirst, h]

theorem scanFirst_of_matchHead (m : List Char → Option (List Char))
    (l r : List Char) (h : m l = some r) : scanFirst m l = some r := by
  cases l <;> simp [scanFirst, h]

theorem scanFirst_append_none (m : List Char → Option (List Char))
    (pre l : List Char)
    (h : ∀ i, i < pre.length → m (pre.drop i ++ l) = none) :
    scanFirst m (pre ++ l) = scanFirst m l := by
  induction pre with
  | nil => rfl
  | cons c pre ih =>
    show scanFirst m (c :: (pre ++ l)) = _
    have h0 : m (c :: (pre ++ l)) = none := by
      have := h 0 (by simp)
      simpa using this
    rw [scanFirst_cons_none m _ _ h0]
    refine ih (fun i hi => ?_)
    have := h (i + 1) (by simpa using Nat.succ_lt_succ hi)
    simpa using this

theorem takeWhile_append_sat {p : Char → Bool} (l r : List Char)
    (h : ∀ x ∈ l, p x = true) :
    (l ++ r).takeWhile p = l ++ r.takeWhile p := by
  induction l with
  | nil => rfl
  | cons a l ih =>
    simp only [List.cons_append, List.takeWhile_cons, h a (by simp),
      if_true, ih (fun x hx => h x (by simp [hx]))]

theorem dropWhile_append_sat {p : Char → Bool} (l r : List Char)
    (h : ∀ x ∈ l, p x = true) :
    (l ++ r).dropWhile p = r.dropWhile p := by
  induction l with
  | nil => rfl
  | cons a l ih =>
    simp only [List.cons_append, List.dropWhile_cons, h a (by simp),
      if_true, ih (fun x hx => h x (by simp [hx]))]

theorem matchLitCI_self_append (p rest : List Char) :
    matchLitCI p (p ++ rest) = some rest := by
  induction p with
  | nil => rfl
  | cons a p ih => simp [matchLitCI, ih]


theorem matchMetaAt_tag (c rest : List Char) (hc : c ≠ [])
    (hq : ∀ ch ∈ c, ch ≠ '\x22') :
    matchMetaAt ((("<meta name=\x22description\x22 content=\x22").data) ++
      (c ++ ('\x22' :: rest))) = some c := by
  have hq' : ∀ x ∈ c, (fun ch => decide (ch ≠ '\x22')) x = true := by
    intro x hx
    simpa using hq x hx
  have hemp : c.isEmpty = false := by
    cases c with
    | nil => exact absurd rfl hc
    | cons a l => rfl
  have h1 : matchMetaAt ((("<meta name=\x22description\x22 content=\x22").data) ++
      (c ++ ('\x22' :: rest))) =
      (let cap := (c ++ ('\x22' :: rest)).takeWhile (fun ch => ch ≠ '\x22')
       match (c ++ ('\x22' :: rest)).dropWhile (fun ch => ch ≠ '\x22') with
       | '\x22' :: _ => if cap.isEmpty then none else some cap
       | _ => none) := rfl
  rw [h1]
  simp only [takeWhile_append_sat c ('\x22' :: rest) hq',
    dropWhile_append_sat c ('\x22' :: rest) hq']
  simp [hemp]

theorem matchPAt_tag (t suf : List Char) (ht : t ≠ [])
    (hlt : ∀ ch ∈ t, ch ≠ '<') :
    matchPAt ((("<p>").data) ++ (t ++ ((("</p>").data) ++ suf))) = some t := by
  have hq' : ∀ x ∈ t, (fun ch => decide (ch ≠ '<')) x = true := by
    intro x hx
    simpa using hlt x hx
  have hemp : t.isEmpty = false := by
    cases t with
    | nil => exact absurd rfl ht
    | cons a l => rfl
  have h1 : matchPAt ((("<p>").data) ++ (t ++ ((("</p>").data) ++ suf))) =
      (let cap :=
        (t ++ ((("</p>").data) ++ suf)).takeWhile (fun ch => ch ≠ '<')
       if cap.isEmpty then none
       else
         match matchLitCI (("</p>").data)
             ((t ++ ((("</p>").data) ++ suf)).dropWhile
               (fun ch => ch ≠ '<')) with
         | some _ => some cap
         | none => none) := rfl
  rw [h1]
  simp only [takeWhile_append_sat t ((("</p>").data) ++ suf) hq',
    dropWhile_append_sat t ((("</p>").data) ++ suf) hq']
  have h2 : ((("</p>").data) ++ suf).takeWhile (fun ch => ch ≠ '<') = [] :=
    rfl
  have h3 : ((("</p>").data) ++ suf).dropWhile (fun ch => ch ≠ '<') =
      (("</p>").data) ++ suf := rfl
  rw [h2, h3, matchLitCI_self_append]
  simp [hemp]

/-- C3 (amended): if the page content contains a meta description tag
(in the simple form) as the leftmost match of the meta pattern -- no
earlier position of the content matches it -- extraction returns exactly
that content attribute value; otherwise, if it contains a simple
paragraph element as the leftmost match of the paragraph pattern,
extraction returns that paragraph text; otherwise extraction returns the
literal fallback "Component description not available" (no trailing
period). -/
theorem extractDescription_spec :
    (∀ pre c suf : String,
      (∀ i, i < pre.data.length →
        matchMetaAt (pre.data.drop i ++
          ((("<meta name=\x22description\x22 content=\x22").data) ++
            (c.data ++ ('\x22' :: ('>' :: suf.data))))) = none) →
      c ≠ ("") → (∀ ch ∈ c.data, ch ≠ '\x22') →
      extractDescription
        (pre ++ ("<meta name=\x22description\x22 content=\x22") ++ c ++
          ("\x22>") ++ suf) = c) ∧
    (∀ pre t suf : String,
      scanFirst matchMetaAt
        (pre ++ ("<p>") ++ t ++ ("</p>") ++ suf).data = none →
      (∀ i, i < pre.data.length →
        matchPAt (pre.data.drop i ++
          ((("<p>").data) ++
            (t.data ++ ((("</p>").data) ++ suf.data)))) = none) →
      t ≠ ("") → (∀ ch ∈ t.data, ch ≠ '<') →
      extractDescription (pre ++ ("<p>") ++ t ++ ("</p>") ++ suf) = t) ∧
    (∀ html : String, scanFirst matchMetaAt html.data = none →
      scanFirst matchPAt html.data = none →
      extractDescription html = ("Component description not available")) := by
  refine ⟨?_, ?_, ?_⟩
  · intro pre c suf hleft hcne hq
    have hcne2 : c.data ≠ [] := by
      intro h
      apply hcne
      cases c with
      | mk d => exact congrArg String.mk h
    have hdata :
        (pre ++ ("<meta name=\x22description\x22 content=\x22") ++ c ++
          ("\x22>") ++ suf).data =
        pre.data ++ ((("<meta name=\x22description\x22 content=\x22").data) ++
          (c.data ++ ('\x22' :: ('>' :: suf.data)))) := by
      simp [show (("\x22>").data) = ('\x22' :: ('>' :: [])) from rfl]
    unfold extractDescription
    rw [hdata]
    rw [scanFirst_append_none matchMetaAt pre.data _ hleft]
    rw [scanFirst_of_matchHead matchMetaAt _ c.data
      (matchMetaAt_tag c.data ('>' :: suf.data) hcne2 hq)]
  · intro pre t suf hmeta hleft htne hlt
    have htne2 : t.data ≠ [] := by
      intro h
      apply htne
      cases t with
      | mk d => exact congrArg String.mk h
    have hdata :
        (pre ++ ("<p>") ++ t ++ ("</p>") ++ suf).data =
        pre.data ++ ((("<p>").data) ++
          (t.data ++ ((("</p>").data) ++ suf.data))) := by
      simp
    unfold extractDescription
    rw [hmeta]
    rw [hdata]
    rw [scanFirst_append_none matchPAt pre.data _ hleft]
    rw [scanFirst_of_matchHead matchPAt _ t.data
      (matchPAt_tag t.data suf.data htne2 hlt)]
  · intro html h1 h2
    unfold extractDescription
    rw [h1, h2]

theorem extractDescription_period_counterexample :
    extractDescription ("") = ("Component description not available") ∧
      ("Component description not available") ≠
        ("Component description not available.") := by
  constructor
  · rfl
  · decide

theorem extractDescription_spec_witness :
    extractDescription (("<div>") ++
      ("<meta name=\x22description\x22 content=\x22") ++
      ("Displays rows and columns of data.") ++ ("\x22>") ++ ("")) =
      ("Displays rows and columns of data.") :=
  extractDescription_spec.1 ("<div>") ("Displays rows and columns of data.")
    ("") (by decide) (by decide) (by decide)
